import Mathlib

/-!
Shallow embedding of the bech32 address-family module of the feather.js
repository (`src/core/bech32.ts`), together with models of the two message
classes named by the claims.

The repository's functions call an external bech32 codec
(`bech32.decode` / `bech32.encode` from the `bech32` npm package).  That
codec is not part of this repository, so it is embedded abstractly as a
structure `Bech32` with a `decode` and an `encode` field; a JavaScript
exception is modelled as `none`.  `decode` returns the human-readable
prefix string together with the list of 5-bit payload words; `encode`
re-encodes a prefix and a word list (the npm codec throws when the result
would exceed its 90-character length limit, hence `encode` is also
`Option`-valued).  The repository code itself is translated function by
function below; an executable sample codec (`modelCodec`, a bech32-shaped
codec with a constant checksum and the npm package's 90-character limit)
instantiates the abstract interface for concrete evaluations.
-/

namespace Feather

/-- Interface of the external checksummed-string codec
(`bech32.decode` / `bech32.encode`).  `none` models a thrown error. -/
structure Bech32 where
  decode : String → Option (String × List Nat)
  encode : String → List Nat → Option String

/-- JavaScript truthiness of a `false | string` value (and of an optional
string parameter): `false`/`undefined` and the empty string are falsy. -/
def strTruthy : Option String → Bool
  | none => false
  | some s => !(s == "")

/-- JavaScript `x || y` on `false | string` values. -/
def jsOr (x y : Option String) : Option String :=
  if strTruthy x then x else y

/-- JavaScript `x || ''` on a `false | string` value. -/
def orEmpty (x : Option String) : String :=
  x.getD ""

/-- JavaScript strict equality `x === p` between a `false | string` value
and a string: `false === p` is always `false`. -/
def strictEq (x : Option String) (p : String) : Bool :=
  match x with
  | none => false
  | some s => s == p

/-- JavaScript `s.substring(0, n)` for a possibly negative `n`
(`substring` clamps negative ends to 0; on `Nat`, truncated subtraction
at the call sites produces the same clamping). -/
def substringTo (s : String) (n : Nat) : String :=
  String.mk (s.data.take n)

/-- `Char.isLower`-style test for the regex class `[a-z]`. -/
def isLowerAlpha (c : Char) : Bool :=
  'a' ≤ c && c ≤ 'z'

/-- Semantics of the JavaScript test `/([a-z]\x7b2,20\x7dsfx)/g.test s`:
the regex is unanchored, so the test succeeds exactly when some occurrence
of `sfx` in `s` is immediately preceded by at least two characters of
`[a-z]` (a match with `k` leading letters, `2 ≤ k ≤ 20`, exists iff one
with exactly two of them does). -/
def regexTest (sfx : List Char) : List Char → Bool
  | c :: d :: rest =>
    (isLowerAlpha c && (isLowerAlpha d && sfx.isPrefixOf rest))
    || regexTest sfx (d :: rest)
  | _ => false

/-- `checkLength(data, length)` of `src/core/bech32.ts`: decode `data`,
return `vals.words.length === length && vals.prefix` (the prefix string on
a length match, the `false` sentinel otherwise), absorbing any decode
error into the `false` sentinel. -/
def checkLength (B : Bech32) (data : String) (length : Nat) : Option String :=
  (B.decode data).bind fun vals =>
    if vals.2.length == length then some vals.1 else none

namespace AccAddress

/-- `AccAddress.validate(data, prefix?)`:
`prefix ? (checkLength(data, 32) || checkLength(data, 52)) === prefix
        : !!(checkLength(data, 32) || checkLength(data, 52))`. -/
def validate (B : Bech32) (data : String) (pfx : Option String) : Bool :=
  if strTruthy pfx then
    strictEq (jsOr (checkLength B data 32) (checkLength B data 52)) (pfx.getD "")
  else
    strTruthy (jsOr (checkLength B data 32) (checkLength B data 52))

/-- `AccAddress.fromValAddress(address)`: decode, strip the last
`'valoper'.length` characters from the decoded prefix (JavaScript
`substring` clamping a negative end to 0), re-encode the same words. -/
def fromValAddress (B : Bech32) (address : String) : Option String :=
  (B.decode address).bind fun vals =>
    B.encode (substringTo vals.1 (vals.1.length - "valoper".length)) vals.2

/-- `AccAddress.getPrefix(address)`: decode and return the decoded prefix. -/
def getPrefix (B : Bech32) (address : String) : Option String :=
  (B.decode address).map fun vals => vals.1

end AccAddress

namespace AccPubKey

/-- `AccPubKey.validate(data, prefix?)`:
`prefix ? checkLength(data, 32) === prefix + 'pub'
        : /([a-z]\x7b2,20\x7dpub)/g.test(checkLength(data, 32) || '')`. -/
def validate (B : Bech32) (data : String) (pfx : Option String) : Bool :=
  if strTruthy pfx then
    strictEq (checkLength B data 32) ((pfx.getD "") ++ "pub")
  else
    regexTest "pub".data (orEmpty (checkLength B data 32)).data

/-- `AccPubKey.fromAccAddress(address, prefix)`: decode and re-encode the
same words under `prefix + 'pub'`. -/
def fromAccAddress (B : Bech32) (address : String) (p : String) : Option String :=
  (B.decode address).bind fun vals => B.encode (p ++ "pub") vals.2

/-- `AccPubKey.getPrefix(address)`: decode and strip the last
`'pub'.length` characters from the decoded prefix. -/
def getPrefix (B : Bech32) (address : String) : Option String :=
  (B.decode address).map fun vals => substringTo vals.1 (vals.1.length - "pub".length)

end AccPubKey

namespace ValAddress

/-- `ValAddress.validate(data, prefix?)`:
`prefix ? checkLength(data, 32) === prefix + 'valoper'
        : /([a-z]\x7b2,20\x7dvaloper)/g.test(checkLength(data, 32) || '')`. -/
def validate (B : Bech32) (data : String) (pfx : Option String) : Bool :=
  if strTruthy pfx then
    strictEq (checkLength B data 32) ((pfx.getD "") ++ "valoper")
  else
    regexTest "valoper".data (orEmpty (checkLength B data 32)).data

/-- `ValAddress.fromAccAddress(address, prefix)`: decode and re-encode the
same words under `prefix + 'valoper'`. -/
def fromAccAddress (B : Bech32) (address : String) (p : String) : Option String :=
  (B.decode address).bind fun vals => B.encode (p ++ "valoper") vals.2

/-- `ValAddress.getPrefix(address)`: decode and strip the last
`'valoper'.length` characters from the decoded prefix. -/
def getPrefix (B : Bech32) (address : String) : Option String :=
  (B.decode address).map fun vals => substringTo vals.1 (vals.1.length - "valoper".length)

end ValAddress

namespace ValPubKey

/-- `ValPubKey.validate(data, prefix?)`:
`prefix ? checkLength(data, 32) === prefix + 'valoperpub'
        : /([a-z]\x7b2,20\x7dvaloperpub)/g.test(checkLength(data, 32) || '')`. -/
def validate (B : Bech32) (data : String) (pfx : Option String) : Bool :=
  if strTruthy pfx then
    strictEq (checkLength B data 32) ((pfx.getD "") ++ "valoperpub")
  else
    regexTest "valoperpub".data (orEmpty (checkLength B data 32)).data

/-- `ValPubKey.fromValAddress(valAddress, prefix)`: decode and re-encode
the same words under `prefix + 'valoperpub'`. -/
def fromValAddress (B : Bech32) (valAddress : String) (p : String) : Option String :=
  (B.decode valAddress).bind fun vals => B.encode (p ++ "valoperpub") vals.2

/-- `ValPubKey.getPrefix(address)`: decode and strip the last
`'valoperpub'.length` characters from the decoded prefix. -/
def getPrefix (B : Bech32) (address : String) : Option String :=
  (B.decode address).map fun vals => substringTo vals.1 (vals.1.length - "valoperpub".length)

end ValPubKey

namespace ValConsAddress

/-- `ValConsAddress.validate(data, prefix?)`:
`prefix ? checkLength(data, 32) === prefix + 'valcons'
        : /([a-z]\x7b2,20\x7dvalcons)/g.test(checkLength(data, 32) || '')`. -/
def validate (B : Bech32) (data : String) (pfx : Option String) : Bool :=
  if strTruthy pfx then
    strictEq (checkLength B data 32) ((pfx.getD "") ++ "valcons")
  else
    regexTest "valcons".data (orEmpty (checkLength B data 32)).data

/-- `ValConsAddress.getPrefix(address)`: decode and strip the last
`'valcons'.length` characters from the decoded prefix. -/
def getPrefix (B : Bech32) (address : String) : Option String :=
  (B.decode address).map fun vals => substringTo vals.1 (vals.1.length - "valcons".length)

end ValConsAddress

/-!
A concrete executable codec instantiating the `Bech32` interface, shaped
like the npm `bech32` codec: strings are `prefix ++ "1" ++ data`, the data
characters come from the 32-character bech32 alphabet, the last six data
characters are a checksum, the total length is capped at 90 characters and
the decoded prefix must be nonempty.  The checksum here is a constant
(`"qqqqqq"`) rather than the BCH polymod of the real codec; everything
else (separator position, alphabet, length accounting, error cases)
follows the npm package, so the codec satisfies the same interface laws
(`encode`/`decode` round trips) that the real codec provides. -/

/-- The bech32 data alphabet, value `i` encoded as `CHARSET[i]`. -/
def CHARSET : List Char := "qpzry9x8gf2tvdw0s3jn54khce6mua7l".data

/-- The data character of a 5-bit word. -/
def wordChar (w : Nat) : Char := CHARSET.getD w 'q'

/-- The value of a data character, `none` for a character outside the
alphabet. -/
def charIdx (c : Char) : Option Nat :=
  if c ∈ CHARSET then some (CHARSET.indexOf c) else none

/-- The model codec's constant six-character checksum. -/
def checksumChars : List Char := List.replicate 6 'q'

/-- Split a character list at its last `'1'` (the bech32 separator rule,
`lastIndexOf('1')` in the npm codec); `none` when there is no `'1'`. -/
def splitLastOne (cs : List Char) : Option (List Char × List Char) :=
  match cs.reverse.dropWhile (fun c => c != '1') with
  | [] => none
  | _ :: rp => some (rp.reverse, (cs.reverse.takeWhile (fun c => c != '1')).reverse)

/-- Decode a list of data characters into their 5-bit words, `none` on the
first character outside the alphabet. -/
def decodeWords : List Char → Option (List Nat)
  | [] => some []
  | c :: cs =>
    match charIdx c, decodeWords cs with
    | some w, some ws => some (w :: ws)
    | _, _ => none

/-- `encode` of the model codec: 90-character limit (`prefix.length + 7 +
words.length > 90` throws in the npm codec), all words must fit in 5 bits,
output is `prefix ++ "1" ++ data ++ checksum`. -/
def modelEncode (p : String) (words : List Nat) : Option String :=
  if p.length + 7 + words.length > 90 then none
  else if words.all (fun w => w < 32) then
    some (String.mk (p.data ++ '1' :: (words.map wordChar ++ checksumChars)))
  else none

/-- `decode` of the model codec: 90-character limit, split at the last
`'1'`, nonempty prefix, at least six data characters, checksum check,
alphabet check. -/
def modelDecode (s : String) : Option (String × List Nat) :=
  if s.length > 90 then none
  else
    (splitLastOne s.data).bind fun pd =>
      if pd.1 = [] then none
      else if pd.2.length < 6 then none
      else if pd.2.drop (pd.2.length - 6) ≠ checksumChars then none
      else
        (decodeWords (pd.2.take (pd.2.length - 6))).map fun ws => (String.mk pd.1, ws)

/-- The model codec as a `Bech32` instance. -/
def modelCodec : Bech32 :=
  { decode := modelDecode, encode := modelEncode }

/-!
Concrete inputs used by the closed witness and counterexample theorems
below, all evaluated through `modelCodec`. -/

/-- 38 data characters of value 0: 32 payload words plus the model
checksum. -/
def qs38 : String := String.mk (List.replicate 38 'q')

/-- A well-formed account-shaped address: root "terra", 32 payload
words. -/
def addr32 : String := "terra1" ++ qs38

/-- A well-formed address with a 20-word payload. -/
def addr20 : String := "terra1" ++ String.mk (List.replicate 26 'q')

/-- The 32 zero payload words of `addr32`. -/
def w32 : List Nat := List.replicate 32 0

/-- The 20 zero payload words of `addr20`. -/
def w20 : List Nat := List.replicate 20 0

/-- The validator-operator derivation of `addr32` under root "terra". -/
def valAddr : String := "terravaloper1" ++ qs38

/-- The account-pubkey derivation of `addr32` under root "terra". -/
def pubAddr : String := "terrapub1" ++ qs38

/-- The validator-pubkey derivation of `addr32` under root "terra". -/
def valPubAddr : String := "terravaloperpub1" ++ qs38

/-- A 45-character root: long enough that appending "valoper" pushes a
re-encode past the codec's 90-character limit. -/
def longRoot : String := String.mk (List.replicate 45 'a')

/-- A decodable 84-character address with root `longRoot` and 32 payload
words. -/
def longAddr : String := longRoot ++ "1" ++ qs38

/-- An address whose decoded prefix "xxvaloperzz" contains "valoper"
preceded by two letters but does not end in "valoper". -/
def oddPrefixAddr : String := "xxvaloperzz1" ++ qs38

/-- A string with no separator character, rejected by `decode`. -/
def badInput : String := "%%%"

/-!
Models of the two message classes named by the claims
(`src/core/alliance/msgs/MsgClaimDelegationRewards.ts` and the
tokenfactory `MsgCreateDenom` class): pure, stateless mappers between the
message fields and the Amino / Data wire shapes.  The `'@type'` JSON key
of the Data shape is spelled `atType` here. -/

/-- The `MsgClaimDelegationRewards` message: `delegatorAddress`,
`validatorAddress`, `denom`. -/
structure MsgClaimDelegationRewards where
  delegatorAddress : String
  validatorAddress : String
  denom : String

namespace MsgClaimDelegationRewards

/-- The `value` object of the Amino shape. -/
structure AminoValue where
  delegatorAddress : String
  validatorAddress : String
  denom : String

/-- The Amino shape: a `type` tag and a `value` object. -/
structure Amino where
  type : String
  value : AminoValue

/-- The Data shape: an `'@type'` tag and the three fields inline. -/
structure Data where
  atType : String
  delegatorAddress : String
  validatorAddress : String
  denom : String

/-- `toAmino`: emits the fixed tag `'alliance/MsgClaimDelegationRewards'`
and copies the three fields into `value`. -/
def toAmino (m : MsgClaimDelegationRewards) : Amino :=
  { type := "alliance/MsgClaimDelegationRewards",
    value := { delegatorAddress := m.delegatorAddress,
               validatorAddress := m.validatorAddress,
               denom := m.denom } }

/-- `fromAmino`: reads the three fields back out of `value`. -/
def fromAmino (a : Amino) : MsgClaimDelegationRewards :=
  { delegatorAddress := a.value.delegatorAddress,
    validatorAddress := a.value.validatorAddress,
    denom := a.value.denom }

/-- `toData`: emits the fixed tag
`'/alliance.alliance.MsgClaimDelegationRewards'` and the three fields. -/
def toData (m : MsgClaimDelegationRewards) : Data :=
  { atType := "/alliance.alliance.MsgClaimDelegationRewards",
    delegatorAddress := m.delegatorAddress,
    validatorAddress := m.validatorAddress,
    denom := m.denom }

/-- `fromData`: reads the three fields back. -/
def fromData (d : Data) : MsgClaimDelegationRewards :=
  { delegatorAddress := d.delegatorAddress,
    validatorAddress := d.validatorAddress,
    denom := d.denom }

end MsgClaimDelegationRewards

/-- The tokenfactory `MsgCreateDenom` message: `sender`, `subdenom`. -/
structure MsgCreateDenom where
  sender : String
  subdenom : String

namespace MsgCreateDenom

/-- The `value` object of the Amino shape. -/
structure AminoValue where
  sender : String
  subdenom : String

/-- The Amino shape: a `type` tag and a `value` object. -/
structure Amino where
  type : String
  value : AminoValue

/-- The Data shape: an `'@type'` tag and the two fields inline. -/
structure Data where
  atType : String
  sender : String
  subdenom : String

/-- `toAmino`: emits the fixed tag `'osmosis/tokenfactory/create-denom'`
and copies the two fields into `value`. -/
def toAmino (m : MsgCreateDenom) : Amino :=
  { type := "osmosis/tokenfactory/create-denom",
    value := { sender := m.sender, subdenom := m.subdenom } }

/-- `fromAmino`: reads the two fields back out of `value`. -/
def fromAmino (a : Amino) : MsgCreateDenom :=
  { sender := a.value.sender, subdenom := a.value.subdenom }

/-- `toData`: emits the fixed tag
`'/cosmwasm.tokenfactory.v1beta1.MsgCreateDenom'` and the two fields. -/
def toData (m : MsgCreateDenom) : Data :=
  { atType := "/cosmwasm.tokenfactory.v1beta1.MsgCreateDenom",
    sender := m.sender,
    subdenom := m.subdenom }

/-- `fromData`: reads the two fields back. -/
def fromData (d : Data) : MsgCreateDenom :=
  { sender := d.sender, subdenom := d.subdenom }

end MsgCreateDenom

end Feather

namespace Feather

theorem mk_data (s : String) : String.mk s.data = s := by
  cases s; rfl

theorem data_ne_nil_of_ne_empty {s : String} (h : s ≠ "") : s.data ≠ [] := by
  intro hd
  apply h
  have hs : s = String.mk s.data := (mk_data s).symm
  rw [hs, hd]

theorem takeWhile_append_cons (P : Char → Bool) (xs : List Char) (y : Char) (ys : List Char)
    (hx : ∀ x ∈ xs, P x = true) (hy : P y = false) :
    (xs ++ y :: ys).takeWhile P = xs := by
  induction xs with
  | nil => simp [List.takeWhile_cons, hy]
  | cons a l ih =>
    have ha : P a = true := hx a (by simp)
    simp only [List.cons_append, List.takeWhile_cons, ha, if_true]
    rw [ih (fun x hx2 => hx x (by simp [hx2]))]

theorem dropWhile_append_cons (P : Char → Bool) (xs : List Char) (y : Char) (ys : List Char)
    (hx : ∀ x ∈ xs, P x = true) (hy : P y = false) :
    (xs ++ y :: ys).dropWhile P = y :: ys := by
  induction xs with
  | nil => simp [List.dropWhile_cons, hy]
  | cons a l ih =>
    have ha : P a = true := hx a (by simp)
    simp only [List.cons_append, List.dropWhile_cons, ha, if_true]
    exact ih (fun x hx2 => hx x (by simp [hx2]))

theorem dropWhile_eq_cons_head (P : Char → Bool) :
    ∀ {l : List Char} {y : Char} {rp : List Char}, l.dropWhile P = y :: rp → P y = false := by
  intro l
  induction l with
  | nil => intro y rp h; simp [List.dropWhile] at h
  | cons a l ih =>
    intro y rp h
    rw [List.dropWhile_cons] at h
    by_cases ha : P a = true
    · rw [if_pos ha] at h; exact ih h
    · rw [if_neg ha] at h
      cases h
      exact Bool.eq_false_iff.mpr ha

theorem splitLastOne_append (pcs dcs : List Char)
    (h : ∀ c ∈ dcs, (c != '1') = true) :
    splitLastOne (pcs ++ '1' :: dcs) = some (pcs, dcs) := by
  have hr : (pcs ++ '1' :: dcs).reverse = dcs.reverse ++ '1' :: pcs.reverse := by
    simp [List.reverse_append]
  have hmem : ∀ c ∈ dcs.reverse, (c != '1') = true := fun c hc =>
    h c (List.mem_reverse.mp hc)
  have h1 : (('1' : Char) != '1') = false := by decide
  unfold splitLastOne
  rw [hr, dropWhile_append_cons _ _ _ _ hmem h1,
    takeWhile_append_cons _ _ _ _ hmem h1]
  simp

theorem splitLastOne_eq_some {cs pcs dcs : List Char}
    (h : splitLastOne cs = some (pcs, dcs)) :
    cs = pcs ++ '1' :: dcs ∧ ∀ c ∈ dcs, (c != '1') = true := by
  unfold splitLastOne at h
  cases hd : cs.reverse.dropWhile (fun c => c != '1') with
  | nil => rw [hd] at h; simp at h
  | cons y rp =>
    rw [hd] at h
    simp only [Option.some.injEq, Prod.mk.injEq] at h
    obtain ⟨hp, hdcs⟩ := h
    have hy : (y != '1') = false := dropWhile_eq_cons_head (fun c => c != '1') hd
    have hy1 : y = '1' := by
      simpa using hy
    have hsplit : cs.reverse.takeWhile (fun c => c != '1') ++ y :: rp = cs.reverse := by
      rw [← hd]; exact List.takeWhile_append_dropWhile _ _
    constructor
    · have hcs : cs = (cs.reverse.takeWhile (fun c => c != '1') ++ y :: rp).reverse := by
        rw [hsplit, List.reverse_reverse]
      rw [hcs, List.reverse_append, hy1]
      simp [← hp, ← hdcs]
    · intro c hc
      rw [← hdcs] at hc
      have hc2 : c ∈ cs.reverse.takeWhile (fun x => x != '1') := List.mem_reverse.mp hc
      exact List.mem_takeWhile_imp (p := fun x => x != '1') hc2

theorem charIdx_wordChar : ∀ v, v < 32 → charIdx (wordChar v) = some v := by decide

theorem wordChar_ne_sep (v : Nat) : (wordChar v != '1') = true := by
  by_cases h : v < 32
  · revert h
    revert v
    decide
  · unfold wordChar
    rw [List.getD_eq_default]
    · decide
    · have hlen : CHARSET.length = 32 := by decide
      omega

theorem charIdx_eq_some {c : Char} {v : Nat} (h : charIdx c = some v) :
    v < 32 ∧ wordChar v = c := by
  unfold charIdx at h
  by_cases hc : c ∈ CHARSET
  · rw [if_pos hc] at h
    cases h
    have hlt : CHARSET.indexOf c < CHARSET.length := List.indexOf_lt_length.mpr hc
    have hlen : CHARSET.length = 32 := by decide
    refine ⟨by omega, ?_⟩
    unfold wordChar
    rw [List.getD_eq_get?, List.get?_eq_get hlt, Option.getD_some]
    exact List.indexOf_get hlt
  · rw [if_neg hc] at h
    cases h

theorem decodeWords_map (ws : List Nat) (h : ∀ v ∈ ws, v < 32) :
    decodeWords (ws.map wordChar) = some ws := by
  induction ws with
  | nil => rfl
  | cons v l ih =>
    have hv : v < 32 := h v (by simp)
    simp only [List.map_cons, decodeWords, charIdx_wordChar v hv,
      ih (fun x hx => h x (by simp [hx]))]

theorem decodeWords_inv : ∀ {cs : List Char} {ws : List Nat},
    decodeWords cs = some ws → cs = ws.map wordChar ∧ ∀ v ∈ ws, v < 32 := by
  intro cs
  induction cs with
  | nil =>
    intro ws h
    simp only [decodeWords, Option.some.injEq] at h
    subst h
    simp
  | cons c l ih =>
    intro ws h
    simp only [decodeWords] at h
    cases hc : charIdx c with
    | none => rw [hc] at h; simp at h
    | some w =>
      rw [hc] at h
      cases hl : decodeWords l with
      | none => rw [hl] at h; simp at h
      | some ws2 =>
        rw [hl] at h
        simp only [Option.some.injEq] at h
        subst h
        obtain ⟨hmap, hlt⟩ := ih hl
        obtain ⟨hw, hwc⟩ := charIdx_eq_some hc
        refine ⟨?_, ?_⟩
        · simp [List.map_cons, hwc, ← hmap]
        · intro v hv
          rcases List.mem_cons.mp hv with h1 | h2
          · subst h1; exact hw
          · exact hlt v h2

end Feather

namespace Feather


theorem length_data (s : String) : s.length = s.data.length := rfl

theorem modelEncode_eq_some {p : String} {w : List Nat} {s : String}
    (h : modelEncode p w = some s) :
    p.length + 7 + w.length ≤ 90 ∧ (∀ v ∈ w, v < 32) ∧
      s = String.mk (p.data ++ '1' :: (w.map wordChar ++ checksumChars)) := by
  unfold modelEncode at h
  by_cases h1 : p.length + 7 + w.length > 90
  · rw [if_pos h1] at h; cases h
  · rw [if_neg h1] at h
    by_cases h2 : w.all (fun v => v < 32) = true
    · rw [if_pos h2] at h
      refine ⟨by omega, ?_, ?_⟩
      · intro v hv
        have := List.all_eq_true.mp h2 v hv
        simpa using this
      · cases h; rfl
    · rw [if_neg h2] at h; cases h

theorem modelCodec_rt {p : String} {w : List Nat} {s : String}
    (hp : p ≠ "") (he : modelEncode p w = some s) :
    modelDecode s = some (p, w) := by
  obtain ⟨hlen, hw, hs⟩ := modelEncode_eq_some he
  have hdata : s.data = p.data ++ '1' :: (w.map wordChar ++ checksumChars) := by
    rw [hs]
  have hne : ∀ c ∈ w.map wordChar ++ checksumChars, (c != '1') = true := by
    intro c hc
    rcases List.mem_append.mp hc with h1 | h2
    · obtain ⟨v, _, hv⟩ := List.mem_map.mp h1
      rw [← hv]
      exact wordChar_ne_sep v
    · have : c = 'q' := by
        simpa [checksumChars, List.mem_replicate] using h2
      rw [this]; decide
  have hslen : s.length ≤ 90 := by
    rw [length_data, hdata]
    simp only [List.length_append, List.length_cons, List.length_map,
      checksumChars, List.length_replicate]
    rw [length_data] at hlen
    omega
  have hsplit : splitLastOne s.data = some (p.data, w.map wordChar ++ checksumChars) := by
    rw [hdata]
    exact splitLastOne_append _ _ hne
  have hdlen : (w.map wordChar ++ checksumChars).length = w.length + 6 := by
    simp [checksumChars]
  unfold modelDecode
  rw [if_neg (by omega), hsplit, Option.some_bind]
  simp only
  rw [if_neg (data_ne_nil_of_ne_empty hp)]
  rw [if_neg (by rw [hdlen]; omega)]
  have htake : (w.map wordChar ++ checksumChars).take ((w.map wordChar ++ checksumChars).length - 6) =
      w.map wordChar := by
    rw [hdlen]
    have : w.length + 6 - 6 = (w.map wordChar).length := by simp
    rw [this]
    exact List.take_left _ _
  have hdrop : (w.map wordChar ++ checksumChars).drop ((w.map wordChar ++ checksumChars).length - 6) =
      checksumChars := by
    rw [hdlen]
    have : w.length + 6 - 6 = (w.map wordChar).length := by simp
    rw [this]
    exact List.drop_left _ _
  rw [if_neg (by rw [hdrop]; simp)]
  rw [htake, decodeWords_map w hw, Option.map_some', mk_data]

theorem modelCodec_ed {s p : String} {w : List Nat}
    (hd : modelDecode s = some (p, w)) :
    modelEncode p w = some s := by
  unfold modelDecode at hd
  by_cases h90 : s.length > 90
  · rw [if_pos h90] at hd; cases hd
  rw [if_neg h90] at hd
  cases hsp : splitLastOne s.data with
  | none => rw [hsp] at hd; cases hd
  | some pd =>
    obtain ⟨pcs, dcs⟩ := pd
    rw [hsp, Option.some_bind] at hd
    simp only at hd
    by_cases hpe : pcs = []
    · rw [if_pos hpe] at hd; cases hd
    rw [if_neg hpe] at hd
    by_cases hd6 : dcs.length < 6
    · rw [if_pos hd6] at hd; cases hd
    rw [if_neg hd6] at hd
    by_cases hcc : dcs.drop (dcs.length - 6) ≠ checksumChars
    · rw [if_pos hcc] at hd; cases hd
    rw [if_neg hcc] at hd
    push_neg at hcc
    cases hws : decodeWords (dcs.take (dcs.length - 6)) with
    | none => rw [hws] at hd; cases hd
    | some ws =>
      rw [hws, Option.map_some'] at hd
      simp only [Option.some.injEq, Prod.mk.injEq] at hd
      obtain ⟨hps, hwws⟩ := hd
      obtain ⟨hcs, hne2⟩ := splitLastOne_eq_some hsp
      obtain ⟨hmapeq, hlt⟩ := decodeWords_inv hws
      have hplen : p.length = pcs.length := by
        rw [← hps, String.length_mk]
      have hwlen : ws.length = dcs.length - 6 := by
        have h1 : (dcs.take (dcs.length - 6)).length = dcs.length - 6 := by
          rw [List.length_take]
          omega
        rw [hmapeq] at h1
        simpa using h1
      have hslen : s.length = pcs.length + 1 + dcs.length := by
        rw [length_data, hcs]
        simp
        omega
      unfold modelEncode
      rw [← hwws]
      rw [if_neg (by omega)]
      rw [if_pos (List.all_eq_true.mpr (fun v hv => by simpa using hlt v hv))]
      have hdcs2 : ws.map wordChar ++ checksumChars = dcs := by
        rw [← hmapeq, ← hcc]
        exact List.take_append_drop _ _
      have hout : p.data ++ '1' :: (ws.map wordChar ++ checksumChars) = s.data := by
        rw [hcs, ← hps]
        have hpd : (String.mk pcs).data = pcs := rfl
        rw [hpd, hdcs2]
      rw [hout, mk_data]


end Feather

namespace Feather

theorem append_ne_empty (p sfx : String) (h : sfx.data ≠ []) : p ++ sfx ≠ "" := by
  intro he
  have hd := congrArg String.data he
  rw [String.data_append] at hd
  exact h (List.append_eq_nil.mp hd).2

theorem substringTo_append (p sfx : String) :
    substringTo (p ++ sfx) ((p ++ sfx).length - sfx.length) = p := by
  unfold substringTo
  rw [String.length_append, Nat.add_sub_cancel, String.data_append]
  have hl : p.length = p.data.length := rfl
  rw [hl, List.take_left, mk_data]

theorem strictEq_eq_true {x : Option String} {p : String} :
    strictEq x p = true ↔ x = some p := by
  cases x <;> simp [strictEq]

theorem strTruthy_some {s : String} : strTruthy (some s) = true ↔ s ≠ "" := by
  simp [strTruthy]

theorem checkLength_eq_some {B : Bech32} {s : String} {n : Nat} {q : String} :
    checkLength B s n = some q ↔ ∃ w, B.decode s = some (q, w) ∧ w.length = n := by
  unfold checkLength
  cases hd : B.decode s with
  | none => simp
  | some v =>
    obtain ⟨vp, vw⟩ := v
    rw [Option.some_bind]
    by_cases hl : vw.length = n
    · rw [if_pos (by simp [hl])]
      constructor
      · intro h
        simp only [Option.some.injEq] at h
        subst h
        exact ⟨vw, rfl, hl⟩
      · rintro ⟨w, hw, hn⟩
        simp only [Option.some.injEq, Prod.mk.injEq] at hw
        rw [hw.1]
    · rw [if_neg (by simp [hl])]
      constructor
      · intro h; cases h
      · rintro ⟨w, hw, hn⟩
        simp only [Option.some.injEq, Prod.mk.injEq] at hw
        exact absurd (by rw [hw.2]; exact hn) hl

theorem checkLength_eq_none {B : Bech32} {s : String} {n : Nat} :
    checkLength B s n = none ↔
      B.decode s = none ∨ ∃ q w, B.decode s = some (q, w) ∧ w.length ≠ n := by
  unfold checkLength
  cases hd : B.decode s with
  | none => simp
  | some v =>
    obtain ⟨vp, vw⟩ := v
    rw [Option.some_bind]
    by_cases hl : vw.length = n
    · rw [if_pos (by simp [hl])]
      simp [hl]
    · rw [if_neg (by simp [hl])]
      simp only [eq_self_iff_true, true_iff]
      exact Or.inr ⟨vp, vw, rfl, hl⟩

end Feather

namespace Feather

theorem jsOr_acc_eq_some {B : Bech32} {s p : String} (hp : p ≠ "") :
    jsOr (checkLength B s 32) (checkLength B s 52) = some p ↔
      ∃ w, B.decode s = some (p, w) ∧ (w.length = 32 ∨ w.length = 52) := by
  unfold jsOr
  cases h32 : checkLength B s 32 with
  | none =>
    rw [if_neg (by simp [strTruthy])]
    rw [checkLength_eq_some]
    rw [checkLength_eq_none] at h32
    constructor
    · rintro ⟨w, hw, h52⟩
      exact ⟨w, hw, Or.inr h52⟩
    · rintro ⟨w, hw, h3252⟩
      rcases h3252 with h3 | h5
      · rcases h32 with hnone | ⟨q2, w2, hw2, hn2⟩
        · rw [hw] at hnone; cases hnone
        · rw [hw] at hw2
          simp only [Option.some.injEq, Prod.mk.injEq] at hw2
          rw [hw2.2] at h3
          exact absurd h3 hn2
      · exact ⟨w, hw, h5⟩
  | some q =>
    obtain ⟨w0, hdec0, hlen0⟩ := checkLength_eq_some.mp h32
    by_cases hq : q = ""
    · subst hq
      rw [if_neg (by simp [strTruthy])]
      rw [checkLength_eq_some]
      constructor
      · rintro ⟨w, hw, h52⟩
        exact ⟨w, hw, Or.inr h52⟩
      · rintro ⟨w, hw, h3252⟩
        rw [hdec0] at hw
        simp only [Option.some.injEq, Prod.mk.injEq] at hw
        exact absurd hw.1.symm hp
    · rw [if_pos (by simp [strTruthy, hq])]
      constructor
      · intro h
        simp only [Option.some.injEq] at h
        subst h
        exact ⟨w0, hdec0, Or.inl hlen0⟩
      · rintro ⟨w, hw, h3252⟩
        rw [hdec0] at hw
        simp only [Option.some.injEq, Prod.mk.injEq] at hw
        rw [hw.1]

theorem jsOr_acc_truthy {B : Bech32} {s : String} :
    strTruthy (jsOr (checkLength B s 32) (checkLength B s 52)) = true →
      ∃ q w, B.decode s = some (q, w) ∧ (w.length = 32 ∨ w.length = 52) := by
  unfold jsOr
  intro h
  by_cases h32 : strTruthy (checkLength B s 32) = true
  · rw [if_pos h32] at h
    cases hc : checkLength B s 32 with
    | none => rw [hc] at h; cases h
    | some q =>
      obtain ⟨w, hw, hl⟩ := checkLength_eq_some.mp hc
      exact ⟨q, w, hw, Or.inl hl⟩
  · rw [if_neg h32] at h
    cases hc : checkLength B s 52 with
    | none => rw [hc] at h; cases h
    | some q =>
      obtain ⟨w, hw, hl⟩ := checkLength_eq_some.mp hc
      exact ⟨q, w, hw, Or.inr hl⟩

end Feather

namespace Feather

theorem regexTest_nil (sfx : List Char) : regexTest sfx [] = false := rfl

theorem regex_checkLength_sound {B : Bech32} {s : String} {sfx : List Char} :
    regexTest sfx (orEmpty (checkLength B s 32)).data = true →
      ∃ q w, B.decode s = some (q, w) ∧ w.length = 32 := by
  intro h
  cases hc : checkLength B s 32 with
  | none =>
    rw [hc] at h
    simp only [orEmpty, Option.getD_none] at h
    rw [regexTest_nil] at h
    cases h
  | some q =>
    obtain ⟨w, hw, hl⟩ := checkLength_eq_some.mp hc
    exact ⟨q, w, hw, hl⟩

/-- Claim C1 (amended): with an expected (nonempty) root `p`,
`AccAddress.validate` accepts exactly the payload lengths 32 or 52 words
with decoded prefix `p`, and each of the other four families accepts
exactly a 32-word payload with decoded prefix `p` followed by the family
suffix; without an expected root, acceptance still implies these payload
lengths. -/
theorem validate_accepted_word_lengths (B : Bech32) (s p : String) (hp : p ≠ "") :
    (AccAddress.validate B s (some p) = true ↔
      ∃ w, B.decode s = some (p, w) ∧ (w.length = 32 ∨ w.length = 52)) ∧
    (ValAddress.validate B s (some p) = true ↔
      ∃ w, B.decode s = some (p ++ "valoper", w) ∧ w.length = 32) ∧
    (AccPubKey.validate B s (some p) = true ↔
      ∃ w, B.decode s = some (p ++ "pub", w) ∧ w.length = 32) ∧
    (ValPubKey.validate B s (some p) = true ↔
      ∃ w, B.decode s = some (p ++ "valoperpub", w) ∧ w.length = 32) ∧
    (ValConsAddress.validate B s (some p) = true ↔
      ∃ w, B.decode s = some (p ++ "valcons", w) ∧ w.length = 32) ∧
    (AccAddress.validate B s none = true →
      ∃ q w, B.decode s = some (q, w) ∧ (w.length = 32 ∨ w.length = 52)) ∧
    (ValAddress.validate B s none = true →
      ∃ q w, B.decode s = some (q, w) ∧ w.length = 32) ∧
    (AccPubKey.validate B s none = true →
      ∃ q w, B.decode s = some (q, w) ∧ w.length = 32) ∧
    (ValPubKey.validate B s none = true →
      ∃ q w, B.decode s = some (q, w) ∧ w.length = 32) ∧
    (ValConsAddress.validate B s none = true →
      ∃ q w, B.decode s = some (q, w) ∧ w.length = 32) := by
  have hpt : strTruthy (some p) = true := strTruthy_some.mpr hp
  have hnf : strTruthy (none : Option String) = false := rfl
  refine ⟨?_, ?_, ?_, ?_, ?_, ?_, ?_, ?_, ?_, ?_⟩
  · unfold AccAddress.validate
    rw [if_pos hpt, Option.getD_some, strictEq_eq_true]
    exact jsOr_acc_eq_some hp
  · unfold ValAddress.validate
    rw [if_pos hpt, Option.getD_some, strictEq_eq_true]
    exact checkLength_eq_some
  · unfold AccPubKey.validate
    rw [if_pos hpt, Option.getD_some, strictEq_eq_true]
    exact checkLength_eq_some
  · unfold ValPubKey.validate
    rw [if_pos hpt, Option.getD_some, strictEq_eq_true]
    exact checkLength_eq_some
  · unfold ValConsAddress.validate
    rw [if_pos hpt, Option.getD_some, strictEq_eq_true]
    exact checkLength_eq_some
  · unfold AccAddress.validate
    rw [if_neg (by rw [hnf]; simp)]
    exact jsOr_acc_truthy
  · unfold ValAddress.validate
    rw [if_neg (by rw [hnf]; simp)]
    exact regex_checkLength_sound
  · unfold AccPubKey.validate
    rw [if_neg (by rw [hnf]; simp)]
    exact regex_checkLength_sound
  · unfold ValPubKey.validate
    rw [if_neg (by rw [hnf]; simp)]
    exact regex_checkLength_sound
  · unfold ValConsAddress.validate
    rw [if_neg (by rw [hnf]; simp)]
    exact regex_checkLength_sound

/-- Claim C1, counterexample to the stated lengths: `addr32` decodes to a
32-word payload — not 20 or 52 — yet `AccAddress.validate` accepts it,
while the 20-word `addr20` is rejected. -/
theorem validate_twenty_words_counterexample :
    AccAddress.validate modelCodec addr32 (some "terra") = true ∧
    modelCodec.decode addr32 = some ("terra", w32) ∧ w32.length = 32 ∧
    AccAddress.validate modelCodec addr20 (some "terra") = false ∧
    modelCodec.decode addr20 = some ("terra", w20) ∧ w20.length = 20 := by
  refine ⟨by decide, by decide, by decide, by decide, by decide, by decide⟩

/-- Witness for `validate_accepted_word_lengths` at concrete inputs. -/
theorem validate_accepted_word_lengths_witness :
    AccAddress.validate modelCodec addr32 (some "terra") = true ∧
    ValAddress.validate modelCodec valAddr (some "terra") = true :=
  ⟨(validate_accepted_word_lengths modelCodec addr32 "terra" (by decide)).1.mpr
      ⟨w32, by decide, Or.inl (by decide)⟩,
    (validate_accepted_word_lengths modelCodec valAddr "terra" (by decide)).2.1.mpr
      ⟨w32, by decide, by decide⟩⟩

end Feather

namespace Feather

theorem accValidate_false_of_none {B : Bech32} {data : String} {o : Option String}
    (h32 : checkLength B data 32 = none) (h52 : checkLength B data 52 = none) :
    AccAddress.validate B data o = false := by
  unfold AccAddress.validate
  rw [h32, h52]
  simp [jsOr, strTruthy, strictEq]

theorem valValidate_false_of_none {B : Bech32} {data : String} {o : Option String}
    (h32 : checkLength B data 32 = none) :
    ValAddress.validate B data o = false := by
  unfold ValAddress.validate
  rw [h32]
  simp [strictEq, orEmpty, regexTest_nil]

theorem accPubValidate_false_of_none {B : Bech32} {data : String} {o : Option String}
    (h32 : checkLength B data 32 = none) :
    AccPubKey.validate B data o = false := by
  unfold AccPubKey.validate
  rw [h32]
  simp [strictEq, orEmpty, regexTest_nil]

theorem valPubValidate_false_of_none {B : Bech32} {data : String} {o : Option String}
    (h32 : checkLength B data 32 = none) :
    ValPubKey.validate B data o = false := by
  unfold ValPubKey.validate
  rw [h32]
  simp [strictEq, orEmpty, regexTest_nil]

theorem valConsValidate_false_of_none {B : Bech32} {data : String} {o : Option String}
    (h32 : checkLength B data 32 = none) :
    ValConsAddress.validate B data o = false := by
  unfold ValConsAddress.validate
  rw [h32]
  simp [strictEq, orEmpty, regexTest_nil]

/-- Claim C2: for every family and input, with or without an expected
root, `validate` returns `false` whenever the decode fails for any reason
or the decoded payload length does not match the family's accepted
lengths; the decode failure is absorbed inside `checkLength` (the
`Option`-valued result is converted to the `false` sentinel, never
propagated), so `validate` is a total Boolean function. -/
theorem validate_absorbs_decode_failures (B : Bech32) (data : String) (o : Option String) :
    (B.decode data = none →
      AccAddress.validate B data o = false ∧ ValAddress.validate B data o = false ∧
      AccPubKey.validate B data o = false ∧ ValPubKey.validate B data o = false ∧
      ValConsAddress.validate B data o = false) ∧
    (∀ p w, B.decode data = some (p, w) →
      (w.length ≠ 32 → w.length ≠ 52 → AccAddress.validate B data o = false) ∧
      (w.length ≠ 32 →
        ValAddress.validate B data o = false ∧ AccPubKey.validate B data o = false ∧
        ValPubKey.validate B data o = false ∧ ValConsAddress.validate B data o = false)) := by
  constructor
  · intro hdec
    have hc : ∀ n, checkLength B data n = none := fun n =>
      checkLength_eq_none.mpr (Or.inl hdec)
    exact ⟨accValidate_false_of_none (hc 32) (hc 52), valValidate_false_of_none (hc 32),
      accPubValidate_false_of_none (hc 32), valPubValidate_false_of_none (hc 32),
      valConsValidate_false_of_none (hc 32)⟩
  · intro p w hdec
    constructor
    · intro h32 h52
      have hc32 : checkLength B data 32 = none :=
        checkLength_eq_none.mpr (Or.inr ⟨p, w, hdec, h32⟩)
      have hc52 : checkLength B data 52 = none :=
        checkLength_eq_none.mpr (Or.inr ⟨p, w, hdec, h52⟩)
      exact accValidate_false_of_none hc32 hc52
    · intro h32
      have hc32 : checkLength B data 32 = none :=
        checkLength_eq_none.mpr (Or.inr ⟨p, w, hdec, h32⟩)
      exact ⟨valValidate_false_of_none hc32, accPubValidate_false_of_none hc32,
        valPubValidate_false_of_none hc32, valConsValidate_false_of_none hc32⟩

/-- Witness for `validate_absorbs_decode_failures`: `"%%%"` has no
separator, so its decode fails and every family's `validate` returns
`false`. -/
theorem validate_absorbs_decode_failures_witness :
    AccAddress.validate modelCodec badInput none = false ∧
    ValAddress.validate modelCodec badInput none = false ∧
    AccPubKey.validate modelCodec badInput none = false ∧
    ValPubKey.validate modelCodec badInput none = false ∧
    ValConsAddress.validate modelCodec badInput none = false :=
  (validate_absorbs_decode_failures modelCodec badInput none).1 (by decide)

/-- Claim C6: for a valid account address `a` with decoded root `p` and
an account-class payload length, `validate(a, p)` is `true` and
`validate(a, p ++ "x")` is `false` — the expected-root comparison is
exact. -/
theorem validate_expected_root_exact (B : Bech32) (a p : String) (w : List Nat)
    (hdec : B.decode a = some (p, w)) (hp : p ≠ "")
    (hlen : w.length = 32 ∨ w.length = 52) :
    AccAddress.validate B a (some p) = true ∧
    AccAddress.validate B a (some (p ++ "x")) = false := by
  constructor
  · unfold AccAddress.validate
    rw [if_pos (strTruthy_some.mpr hp), Option.getD_some, strictEq_eq_true]
    exact (jsOr_acc_eq_some hp).mpr ⟨w, hdec, hlen⟩
  · have hpx : p ++ "x" ≠ "" := append_ne_empty p "x" (by decide)
    unfold AccAddress.validate
    rw [if_pos (strTruthy_some.mpr hpx), Option.getD_some]
    cases he : strictEq (jsOr (checkLength B a 32) (checkLength B a 52)) (p ++ "x") with
    | false => rfl
    | true =>
      exfalso
      rw [strictEq_eq_true] at he
      obtain ⟨w2, hw2, _⟩ := (jsOr_acc_eq_some hpx).mp he
      rw [hdec] at hw2
      simp only [Option.some.injEq, Prod.mk.injEq] at hw2
      have h1 := congrArg String.length hw2.1
      rw [String.length_append] at h1
      have hx1 : ("x" : String).length = 1 := rfl
      omega

/-- Witness for `validate_expected_root_exact` at `addr32`. -/
theorem validate_expected_root_exact_witness :
    AccAddress.validate modelCodec addr32 (some "terra") = true ∧
    AccAddress.validate modelCodec addr32 (some ("terra" ++ "x")) = false :=
  validate_expected_root_exact modelCodec addr32 "terra" w32 (by decide) (by decide)
    (Or.inl (by decide))

/-- Claim C9: `AccAddress.fromValAddress` strips the last
`'valoper'.length` characters from the decoded prefix unconditionally —
no check that the prefix ends in "valoper" — and re-encodes the preserved
words under the truncated prefix. -/
theorem fromValAddress_truncates_unconditionally (B : Bech32) (a p : String) (w : List Nat)
    (hdec : B.decode a = some (p, w)) :
    AccAddress.fromValAddress B a =
      B.encode (substringTo p (p.length - "valoper".length)) w := by
  unfold AccAddress.fromValAddress
  rw [hdec, Option.some_bind]

/-- Witness for `fromValAddress_truncates_unconditionally`: the account
address `addr32` (prefix "terra", which does not end in "valoper") is
re-encoded under the clamped-to-empty truncated prefix, yielding a string
rather than an error. -/
theorem fromValAddress_truncates_unconditionally_witness :
    modelCodec.decode addr32 = some ("terra", w32) ∧
    AccAddress.fromValAddress modelCodec addr32 =
      modelCodec.encode (substringTo "terra" ("terra".length - "valoper".length)) w32 ∧
    AccAddress.fromValAddress modelCodec addr32 = some ("1" ++ qs38) :=
  ⟨by decide,
    fromValAddress_truncates_unconditionally modelCodec addr32 "terra" w32 (by decide),
    by decide⟩

end Feather

namespace Feather

/-- Claim C7 (amended): `getPrefix` raises exactly when the decode of its
input raises; a `fromX` derivation raises exactly when the decode raises
or the re-encode of the preserved words under the new prefix raises (the
codec's length-limit error); the failure is propagated, never absorbed
into a sentinel value. -/
theorem getPrefix_fromX_error_propagation (B : Bech32) (a p : String) :
    (AccAddress.getPrefix B a = none ↔ B.decode a = none) ∧
    (AccPubKey.getPrefix B a = none ↔ B.decode a = none) ∧
    (ValAddress.getPrefix B a = none ↔ B.decode a = none) ∧
    (ValPubKey.getPrefix B a = none ↔ B.decode a = none) ∧
    (ValConsAddress.getPrefix B a = none ↔ B.decode a = none) ∧
    (ValAddress.fromAccAddress B a p = none ↔
      B.decode a = none ∨
        ∃ q w, B.decode a = some (q, w) ∧ B.encode (p ++ "valoper") w = none) ∧
    (AccPubKey.fromAccAddress B a p = none ↔
      B.decode a = none ∨
        ∃ q w, B.decode a = some (q, w) ∧ B.encode (p ++ "pub") w = none) ∧
    (ValPubKey.fromValAddress B a p = none ↔
      B.decode a = none ∨
        ∃ q w, B.decode a = some (q, w) ∧ B.encode (p ++ "valoperpub") w = none) ∧
    (AccAddress.fromValAddress B a = none ↔
      B.decode a = none ∨
        ∃ q w, B.decode a = some (q, w) ∧
          B.encode (substringTo q (q.length - "valoper".length)) w = none) := by
  cases hd : B.decode a with
  | none =>
    refine ⟨?_, ?_, ?_, ?_, ?_, ?_, ?_, ?_, ?_⟩ <;>
      simp [AccAddress.getPrefix, AccPubKey.getPrefix, ValAddress.getPrefix,
        ValPubKey.getPrefix, ValConsAddress.getPrefix, ValAddress.fromAccAddress,
        AccPubKey.fromAccAddress, ValPubKey.fromValAddress, AccAddress.fromValAddress, hd]
  | some v =>
    obtain ⟨q, w⟩ := v
    refine ⟨?_, ?_, ?_, ?_, ?_, ?_, ?_, ?_, ?_⟩ <;>
      simp only [AccAddress.getPrefix, AccPubKey.getPrefix, ValAddress.getPrefix,
        ValPubKey.getPrefix, ValConsAddress.getPrefix, ValAddress.fromAccAddress,
        AccPubKey.fromAccAddress, ValPubKey.fromValAddress, AccAddress.fromValAddress, hd,
        Option.some_bind, Option.map_some', Option.some.injEq, Prod.mk.injEq,
        reduceCtorEq, false_or] <;>
      exact ⟨fun h => ⟨q, w, ⟨rfl, rfl⟩, h⟩,
        fun hx => by
          obtain ⟨q1, w1, ⟨hq1, hw1⟩, hp⟩ := hx
          subst hq1
          subst hw1
          exact hp⟩

/-- Claim C7, counterexample to the stated "raises iff the decode
raises": `longAddr` decodes successfully, yet `ValAddress.fromAccAddress`
raises, because re-encoding the 32 preserved words under the 52-character
prefix `longRoot ++ "valoper"` exceeds the codec's 90-character limit. -/
theorem derivation_error_counterexample :
    modelCodec.decode longAddr = some (longRoot, w32) ∧
    ValAddress.fromAccAddress modelCodec longAddr longRoot = none :=
  ⟨by decide, by decide⟩

/-- Claim C3: for every successfully decoding `a` and root `p`, each
derivation that produces a result re-encodes exactly the decoded payload
words of `a`, and decoding the result yields those words under
`p ++ "valoper"` / `p ++ "pub"` / `p ++ "valoperpub"` respectively
(assuming the codec's round-trip law). -/
theorem derivations_payload_preserving (B : Bech32)
    (hrt : ∀ q v s, q ≠ "" → B.encode q v = some s → B.decode s = some (q, v))
    (a p pa : String) (w : List Nat) (hdec : B.decode a = some (pa, w)) :
    (∀ r, ValAddress.fromAccAddress B a p = some r →
      B.decode r = some (p ++ "valoper", w)) ∧
    (∀ r, AccPubKey.fromAccAddress B a p = some r →
      B.decode r = some (p ++ "pub", w)) ∧
    (∀ r, ValPubKey.fromValAddress B a p = some r →
      B.decode r = some (p ++ "valoperpub", w)) := by
  refine ⟨?_, ?_, ?_⟩ <;> intro r hr
  · unfold ValAddress.fromAccAddress at hr
    rw [hdec, Option.some_bind] at hr
    exact hrt _ _ _ (append_ne_empty p "valoper" (by decide)) hr
  · unfold AccPubKey.fromAccAddress at hr
    rw [hdec, Option.some_bind] at hr
    exact hrt _ _ _ (append_ne_empty p "pub" (by decide)) hr
  · unfold ValPubKey.fromValAddress at hr
    rw [hdec, Option.some_bind] at hr
    exact hrt _ _ _ (append_ne_empty p "valoperpub" (by decide)) hr

/-- Witness for `derivations_payload_preserving`: deriving from `addr32`
under root "terra" with the model codec. -/
theorem derivations_payload_preserving_witness :
    modelCodec.decode valAddr = some ("terra" ++ "valoper", w32) ∧
    modelCodec.decode pubAddr = some ("terra" ++ "pub", w32) ∧
    modelCodec.decode valPubAddr = some ("terra" ++ "valoperpub", w32) :=
  ⟨(derivations_payload_preserving modelCodec
      (fun _ _ _ hq he => modelCodec_rt hq he) addr32 "terra" "terra" w32 (by decide)).1
      valAddr (by decide),
    (derivations_payload_preserving modelCodec
      (fun _ _ _ hq he => modelCodec_rt hq he) addr32 "terra" "terra" w32 (by decide)).2.1
      pubAddr (by decide),
    (derivations_payload_preserving modelCodec
      (fun _ _ _ hq he => modelCodec_rt hq he) addr32 "terra" "terra" w32 (by decide)).2.2
      valPubAddr (by decide)⟩

/-- Claim C5: `getPrefix` applied to a derived string returns exactly the
root prefix the derivation was given (assuming the codec's round-trip
law). -/
theorem getPrefix_of_derivation (B : Bech32)
    (hrt : ∀ q v s, q ≠ "" → B.encode q v = some s → B.decode s = some (q, v))
    (a p pa : String) (w : List Nat) (hdec : B.decode a = some (pa, w)) :
    (∀ r, ValAddress.fromAccAddress B a p = some r →
      ValAddress.getPrefix B r = some p) ∧
    (∀ r, AccPubKey.fromAccAddress B a p = some r →
      AccPubKey.getPrefix B r = some p) ∧
    (∀ r, ValPubKey.fromValAddress B a p = some r →
      ValPubKey.getPrefix B r = some p) := by
  obtain ⟨hval, hpub, hvalpub⟩ :=
    derivations_payload_preserving B hrt a p pa w hdec
  refine ⟨?_, ?_, ?_⟩ <;> intro r hr
  · unfold ValAddress.getPrefix
    rw [hval r hr, Option.map_some']
    rw [substringTo_append p "valoper"]
  · unfold AccPubKey.getPrefix
    rw [hpub r hr, Option.map_some']
    rw [substringTo_append p "pub"]
  · unfold ValPubKey.getPrefix
    rw [hvalpub r hr, Option.map_some']
    rw [substringTo_append p "valoperpub"]

/-- Witness for `getPrefix_of_derivation` at `addr32` under root
"terra". -/
theorem getPrefix_of_derivation_witness :
    ValAddress.getPrefix modelCodec valAddr = some "terra" ∧
    AccPubKey.getPrefix modelCodec pubAddr = some "terra" ∧
    ValPubKey.getPrefix modelCodec valPubAddr = some "terra" :=
  ⟨(getPrefix_of_derivation modelCodec (fun _ _ _ hq he => modelCodec_rt hq he)
      addr32 "terra" "terra" w32 (by decide)).1 valAddr (by decide),
    (getPrefix_of_derivation modelCodec (fun _ _ _ hq he => modelCodec_rt hq he)
      addr32 "terra" "terra" w32 (by decide)).2.1 pubAddr (by decide),
    (getPrefix_of_derivation modelCodec (fun _ _ _ hq he => modelCodec_rt hq he)
      addr32 "terra" "terra" w32 (by decide)).2.2 valPubAddr (by decide)⟩

/-- Claim C4 (amended): for a decodable account address `a` with root
`p`, whenever `ValAddress.fromAccAddress(a, p)` produces a result (the
re-encode stays within the codec's length limit),
`AccAddress.fromValAddress` maps that result back to exactly `a`
(assuming the codec's two interface laws). -/
theorem acc_val_roundtrip (B : Bech32)
    (hrt : ∀ q v s, q ≠ "" → B.encode q v = some s → B.decode s = some (q, v))
    (hed : ∀ s q v, B.decode s = some (q, v) → B.encode q v = some s)
    (a p : String) (w : List Nat) (v : String)
    (hdec : B.decode a = some (p, w))
    (hder : ValAddress.fromAccAddress B a p = some v) :
    AccAddress.fromValAddress B v = some a := by
  unfold ValAddress.fromAccAddress at hder
  rw [hdec, Option.some_bind] at hder
  have hdv : B.decode v = some (p ++ "valoper", w) :=
    hrt _ _ _ (append_ne_empty p "valoper" (by decide)) hder
  unfold AccAddress.fromValAddress
  rw [hdv, Option.some_bind, substringTo_append p "valoper"]
  exact hed _ _ _ hdec

/-- Claim C4, counterexample to the unconditional round trip: `longAddr`
is a valid account address for its root (32-word payload), yet the first
conversion `ValAddress.fromAccAddress` already raises the codec's
length-limit error, so the round trip cannot return `longAddr`. -/
theorem acc_val_roundtrip_counterexample :
    AccAddress.validate modelCodec longAddr (some longRoot) = true ∧
    modelCodec.decode longAddr = some (longRoot, w32) ∧
    ValAddress.fromAccAddress modelCodec longAddr longRoot = none :=
  ⟨by decide, by decide, by decide⟩

/-- Witness for `acc_val_roundtrip`: the round trip restores `addr32`. -/
theorem acc_val_roundtrip_witness :
    AccAddress.fromValAddress modelCodec valAddr = some addr32 :=
  acc_val_roundtrip modelCodec (fun _ _ _ hq he => modelCodec_rt hq he)
    (fun _ _ _ hd => modelCodec_ed hd) addr32 "terra" w32 valAddr
    (by decide) (by decide)

end Feather

namespace Feather

theorem regexTest_iff (sfx : List Char) : ∀ cs : List Char,
    regexTest sfx cs = true ↔
      ∃ u c d t, cs = u ++ c :: d :: (sfx ++ t) ∧
        isLowerAlpha c = true ∧ isLowerAlpha d = true := by
  intro cs
  induction cs with
  | nil =>
    rw [regexTest_nil]
    constructor
    · intro h; cases h
    · rintro ⟨u, c, d, t, heq, _, _⟩
      have := congrArg List.length heq
      simp at this
      omega
  | cons c0 rest ih =>
    cases rest with
    | nil =>
      constructor
      · intro h; cases h
      · rintro ⟨u, c, d, t, heq, _, _⟩
        have := congrArg List.length heq
        simp at this
        omega
    | cons d0 rest2 =>
      constructor
      · intro h
        rw [show regexTest sfx (c0 :: d0 :: rest2) =
            ((isLowerAlpha c0 && (isLowerAlpha d0 && sfx.isPrefixOf rest2))
              || regexTest sfx (d0 :: rest2)) from rfl] at h
        rcases Bool.or_eq_true_iff.mp h with h1 | h2
        · have hx := Bool.and_eq_true_iff.mp h1
          have hy := Bool.and_eq_true_iff.mp hx.2
          obtain ⟨t, ht⟩ := List.isPrefixOf_iff_prefix.mp hy.2
          exact ⟨[], c0, d0, t, by rw [← ht]; rfl, hx.1, hy.1⟩
        · obtain ⟨u, c, d, t, heq, hc, hd⟩ := ih.mp h2
          -- hmm ih is about rest = d0 :: rest2? no: ih : regexTest sfx (d0 :: rest2) ↔ ... for rest
          exact ⟨c0 :: u, c, d, t, by rw [List.cons_append, ← heq], hc, hd⟩
      · rintro ⟨u, c, d, t, heq, hc, hd⟩
        rw [show regexTest sfx (c0 :: d0 :: rest2) =
            ((isLowerAlpha c0 && (isLowerAlpha d0 && sfx.isPrefixOf rest2))
              || regexTest sfx (d0 :: rest2)) from rfl]
        cases u with
        | nil =>
          simp only [List.nil_append, List.cons.injEq] at heq
          obtain ⟨hcc, hdd, hrest⟩ := heq
          apply Bool.or_eq_true_iff.mpr
          left
          subst hcc
          subst hdd
          rw [hc, hd]
          simp only [Bool.true_and]
          exact List.isPrefixOf_iff_prefix.mpr ⟨t, hrest.symm⟩
        | cons u0 u1 =>
          simp only [List.cons_append, List.cons.injEq] at heq
          apply Bool.or_eq_true_iff.mpr
          right
          exact ih.mpr ⟨u1, c, d, t, heq.2, hc, hd⟩

end Feather

namespace Feather

theorem unpref_regex_char {B : Bech32} {s : String} {sfx : List Char} :
    regexTest sfx (orEmpty (checkLength B s 32)).data = true ↔
      ∃ q w, B.decode s = some (q, w) ∧ w.length = 32 ∧
        ∃ u c d t, q.data = u ++ c :: d :: (sfx ++ t) ∧
          isLowerAlpha c = true ∧ isLowerAlpha d = true := by
  cases hc : checkLength B s 32 with
  | none =>
    constructor
    · intro h
      simp only [orEmpty, Option.getD_none] at h
      rw [regexTest_nil] at h
      cases h
    · rintro ⟨q, w, hd, hl, _⟩
      exact absurd (checkLength_eq_some.mpr ⟨w, hd, hl⟩) (by rw [hc]; simp)
  | some q =>
    obtain ⟨w0, hd0, hl0⟩ := checkLength_eq_some.mp hc
    simp only [orEmpty, Option.getD_some]
    rw [regexTest_iff]
    constructor
    · rintro ⟨u, c, d, t, hqd, hcl, hdl⟩
      exact ⟨q, w0, hd0, hl0, u, c, d, t, hqd, hcl, hdl⟩
    · rintro ⟨q2, w2, hd2, hl2, u, c, d, t, hqd, hcl, hdl⟩
      rw [hd0] at hd2
      simp only [Option.some.injEq, Prod.mk.injEq] at hd2
      rw [hd2.1]
      exact ⟨u, c, d, t, hqd, hcl, hdl⟩

/-- Claim C8 (amended): with no expected root, a suffixed family's
`validate` returns `true` iff the input decodes with a 32-word payload
and the decoded prefix CONTAINS, anywhere inside it, at least two
lowercase letters immediately followed by the family's fixed suffix: the
JavaScript regex is unanchored, so the decoded prefix need not consist
exactly of a 2-to-20-letter root followed by the suffix (the comparison
is case-sensitive, and a run longer than 20 letters still matches via its
last letters). -/
theorem unprefixed_validate_contains_pattern (B : Bech32) (s : String) :
    (ValAddress.validate B s none = true ↔
      ∃ q w, B.decode s = some (q, w) ∧ w.length = 32 ∧
        ∃ u c d t, q.data = u ++ c :: d :: ("valoper".data ++ t) ∧
          isLowerAlpha c = true ∧ isLowerAlpha d = true) ∧
    (ValPubKey.validate B s none = true ↔
      ∃ q w, B.decode s = some (q, w) ∧ w.length = 32 ∧
        ∃ u c d t, q.data = u ++ c :: d :: ("valoperpub".data ++ t) ∧
          isLowerAlpha c = true ∧ isLowerAlpha d = true) ∧
    (ValConsAddress.validate B s none = true ↔
      ∃ q w, B.decode s = some (q, w) ∧ w.length = 32 ∧
        ∃ u c d t, q.data = u ++ c :: d :: ("valcons".data ++ t) ∧
          isLowerAlpha c = true ∧ isLowerAlpha d = true) ∧
    (AccPubKey.validate B s none = true ↔
      ∃ q w, B.decode s = some (q, w) ∧ w.length = 32 ∧
        ∃ u c d t, q.data = u ++ c :: d :: ("pub".data ++ t) ∧
          isLowerAlpha c = true ∧ isLowerAlpha d = true) := by
  have hnf : strTruthy (none : Option String) = false := rfl
  refine ⟨?_, ?_, ?_, ?_⟩
  · unfold ValAddress.validate
    rw [if_neg (by rw [hnf]; simp)]
    exact unpref_regex_char
  · unfold ValPubKey.validate
    rw [if_neg (by rw [hnf]; simp)]
    exact unpref_regex_char
  · unfold ValConsAddress.validate
    rw [if_neg (by rw [hnf]; simp)]
    exact unpref_regex_char
  · unfold AccPubKey.validate
    rw [if_neg (by rw [hnf]; simp)]
    exact unpref_regex_char

/-- Claim C8, counterexample to the stated whole-prefix pattern match:
`oddPrefixAddr` decodes to prefix "xxvaloperzz" with 32 words.  That
prefix is not a 2-to-20-letter root followed by "valoper" (its last seven
characters are "loperzz", so it does not even end in "valoper"), yet
`ValAddress.validate` accepts it, because the unanchored regex finds
"xxvaloper" inside the prefix. -/
theorem unanchored_regex_counterexample :
    ValAddress.validate modelCodec oddPrefixAddr none = true ∧
    modelCodec.decode oddPrefixAddr = some ("xxvaloperzz", w32) ∧
    ("xxvaloperzz" : String).data.drop 4 ≠ "valoper".data :=
  ⟨by decide, by decide, by decide⟩

/-- Claim C10: the Amino and Data serialization round trips of
`MsgClaimDelegationRewards` and `MsgCreateDenom` are identities on the
message fields, and the `MsgClaimDelegationRewards` serializers emit the
fixed type tags. -/
theorem msg_serialization_roundtrips (m : MsgClaimDelegationRewards) (m2 : MsgCreateDenom) :
    MsgClaimDelegationRewards.fromAmino (MsgClaimDelegationRewards.toAmino m) = m ∧
    MsgClaimDelegationRewards.fromData (MsgClaimDelegationRewards.toData m) = m ∧
    (MsgClaimDelegationRewards.toAmino m).type = "alliance/MsgClaimDelegationRewards" ∧
    (MsgClaimDelegationRewards.toData m).atType =
      "/alliance.alliance.MsgClaimDelegationRewards" ∧
    MsgCreateDenom.fromAmino (MsgCreateDenom.toAmino m2) = m2 ∧
    MsgCreateDenom.fromData (MsgCreateDenom.toData m2) = m2 :=
  ⟨rfl, rfl, rfl, rfl, rfl, rfl⟩

end Feather
